import Mathlib

/-!
Verification development for the genetic-algorithm timetable engine in
`backend/scheduler_app/genetic_algorithm.py`.

The Python code is shallowly embedded: each method of `GeneticAlgorithm`
becomes a Lean definition over explicit data.  Clock times are modelled as
minutes since midnight (`Nat`); `time.hour` is minutes divided by 60.
Randomness is externalized: every call to `random.choice`, `random.sample`,
`random.randint`, `random.random` receives its draw from an `Oracle` of
functions, so the embedded functions are deterministic in the oracle.
`random.choice` on an empty sequence raises in Python; such calls are
embedded through `pyChoice`, which returns `none` in that case, and the
functions that can reach such a call return `Option`.
Catalog querysets arrive pre-filtered exactly as the constructor builds
them: `instructors` only available ones, `rooms` only available ones,
`meeting_times` only non-lunch-break slots.
-/

/-- Catalog entity: an available instructor (only the identity is read by the GA). -/
structure Instructor where
  id : Nat
deriving DecidableEq

/-- Catalog entity: an available room. -/
structure Room where
  id : Nat
  room_type : String
  capacity : Nat
deriving DecidableEq

/-- Catalog entity: a non-break meeting time.  `start_time`/`end_time` are
minutes since midnight; the Python `time.hour` attribute is `t / 60`. -/
structure MeetingTime where
  id : Nat
  day : Nat
  start_time : Nat
  end_time : Nat
deriving DecidableEq

/-- Hour component of a minutes-since-midnight value (Python `time.hour`). -/
def hourOf (t : Nat) : Nat := t / 60

/-- Catalog entity: a course, carrying the fields the GA reads. -/
structure Course where
  id : Nat
  course_type : String
  duration : Nat
  max_students : Nat
  classes_per_week : Nat
  instructors : List Instructor
deriving DecidableEq

/-- Catalog entity: a section (only the identity is read by the GA's
conflict check; the department/year/semester filters happen upstream). -/
structure Section where
  id : Nat
deriving DecidableEq

/-- One gene of a chromosome: the `class_obj` dict built by
`_generate_required_classes` and filled in by initialization/mutation. -/
structure Assignment where
  course : Course
  sect : Section
  duration : Nat
  instructor : Option Instructor
  room : Option Room
  meeting_time : Option MeetingTime
  consecutive_slots : List MeetingTime
deriving DecidableEq

/-- A chromosome: one assignment per class requirement, in requirement order. -/
abbrev Chromosome := List Assignment

/-- The `GeneticAlgorithm` object after its constructor ran: configuration
plus the filtered catalog snapshot and the materialized requirement list. -/
structure GA where
  population_size : Nat
  mutation_rate : ℚ
  elite_rate : ℚ
  generations : Nat
  instructors : List Instructor
  rooms : List Room
  meeting_times : List MeetingTime
  all_classes : List Assignment

def defaultInstructor : Instructor := ⟨0⟩

def defaultRoom : Room := ⟨0, "", 0⟩

def defaultMeetingTime : MeetingTime := ⟨0, 0, 0, 0⟩

def defaultCourse : Course := ⟨0, "", 1, 0, 1, []⟩

def defaultAssignment : Assignment :=
  ⟨defaultCourse, ⟨0⟩, 1, none, none, none, []⟩

/-- `random.choice` on a possibly-empty sequence: Python raises on an empty
sequence, embedded as `none`; on a nonempty one, the oracle draw `r` picks
the element at index `r % length` (every element is reachable). -/
def pyChoice : List α → Nat → Option α
  | [], _ => none
  | x :: xs, r => some ((x :: xs).getD (r % (xs.length + 1)) x)

/-- `random.choice` at a call site that the source guards by a nonemptiness
test; the default `d` is unreachable for nonempty input. -/
def choiceD (l : List α) (d : α) (r : Nat) : α :=
  l.getD (r % l.length) d

/-- Python `max` over a list of rationals (raises on empty; callers that can
reach an empty list go through `pyMax` instead). -/
def listMaxQ : List ℚ → ℚ
  | [] => 0
  | x :: xs => xs.foldl max x

/-- Python `max` with the empty-sequence raise made explicit. -/
def pyMax : List ℚ → Option ℚ
  | [] => none
  | x :: xs => some (listMaxQ (x :: xs))

/-- Python `list.index`: position of the first occurrence of `v`
(total here; the GA only looks up values that are present). -/
def firstIdxOf : List ℚ → ℚ → Nat
  | [], _ => 0
  | x :: xs, v => if x = v then 0 else firstIdxOf xs v + 1

/-- Truthiness of the three assignment fields, as used by
`calculate_fitness` and the convergence check: all three set. -/
def fullyAssignedB (c : Assignment) : Bool :=
  c.instructor.isSome && c.room.isSome && c.meeting_time.isSome

/-- The unassigned count of `calculate_fitness`: requirements missing
instructor, room, or meeting time. -/
def unassignedCount (ind : Chromosome) : Nat :=
  (ind.filter (fun c => !fullyAssignedB c)).length

/-- `_get_class_time_range`: a duration-2 class with a nonempty
`consecutive_slots` list spans from the least slot start to the greatest
slot end; otherwise the single meeting time's range is used.  The `none`
meeting-time fallback is unreachable from `calculate_fitness`, which only
compares fully assigned classes. -/
def getClassTimeRange (c : Assignment) : Nat × Nat :=
  if c.duration = 2 ∧ c.consecutive_slots ≠ [] then
    match c.consecutive_slots with
    | [] => (0, 0)
    | s :: rest =>
      (rest.foldl (fun a t => min a t.start_time) s.start_time,
       rest.foldl (fun a t => max a t.end_time) s.end_time)
  else
    match c.meeting_time with
    | some mt => (mt.start_time, mt.end_time)
    | none => (0, 0)

/-- `_same_time_slot`: same day (read off the `meeting_time` field) and
half-open interval overlap of the two time ranges. -/
def sameTimeSlot (c1 c2 : Assignment) : Bool :=
  match c1.meeting_time, c2.meeting_time with
  | some m1, some m2 =>
    if m1.day ≠ m2.day then false
    else
      let r1 := getClassTimeRange c1
      let r2 := getClassTimeRange c2
      decide (max r1.1 r2.1 < min r1.2 r2.2)
  | _, _ => false

/-- `_has_conflict`: overlapping time and a shared instructor, room, or
section.  The identity reads are guarded by the `Option` match; in the
source they are only reached on fully assigned classes. -/
def hasConflict (c1 c2 : Assignment) : Bool :=
  if sameTimeSlot c1 c2 then
    match c1.instructor, c2.instructor, c1.room, c2.room with
    | some i1, some i2, some r1, some r2 =>
      i1.id = i2.id || r1.id = r2.id || c1.sect.id = c2.sect.id
    | _, _, _, _ => false
  else false

/-- The conflict count of `calculate_fitness`: conflicting unordered pairs,
scanned as the source's double loop over increasing index pairs. -/
def countConflictPairs : List Assignment → Nat
  | [] => 0
  | c :: rest => (rest.filter (fun d => hasConflict c d)).length + countConflictPairs rest

/-- `calculate_fitness`: normalized penalty score in `[0, 100]`.  Python's
float arithmetic is embedded in `ℚ`. -/
def calculate_fitness (ind : Chromosome) : ℚ :=
  let total := ind.length
  if total = 0 then 0
  else
    let unassigned := unassignedCount ind
    let conflicts := countConflictPairs (ind.filter fullyAssignedB)
    let total_penalties : ℚ := (conflicts : ℚ) + (unassigned : ℚ) * 10
    let max_possible : ℚ := (total : ℚ) * ((total : ℚ) - 1) / 2 + (total : ℚ)
    if max_possible = 0 then (if total_penalties = 0 then 100 else 0)
    else max 0 ((1 - total_penalties / max_possible) * 100)

/-- `_get_suitable_rooms`: lab courses get lab rooms, others get rooms with
enough capacity (the room list is already filtered to available rooms). -/
def getSuitableRooms (ga : GA) (course : Course) : List Room :=
  if course.course_type = "Lab" then
    ga.rooms.filter (fun r => r.room_type = "Lab")
  else
    ga.rooms.filter (fun r => course.max_students ≤ r.capacity)

/-- Stable insertion of a meeting time into a list sorted ascending by
`start_time` (the earlier-inserted element goes first on ties, matching
Python's stable `list.sort`). -/
def insertByStart (m : MeetingTime) : List MeetingTime → List MeetingTime
  | [] => [m]
  | x :: xs =>
    if m.start_time ≤ x.start_time then m :: x :: xs
    else x :: insertByStart m xs

/-- Python's stable `times.sort(key=lambda x: x.start_time)`. -/
def sortByStart : List MeetingTime → List MeetingTime
  | [] => []
  | m :: ms => insertByStart m (sortByStart ms)

/-- The distinct days of a meeting-time list in first-appearance order
(Python dict keys preserve insertion order). -/
def dedupDays (l : List MeetingTime) : List Nat :=
  l.foldl (fun acc m => if m.day ∈ acc then acc else acc ++ [m.day]) []

/-- The slots of one day, in list order (the dict grouping of
`_find_consecutive_slots`). -/
def slotsForDay (l : List MeetingTime) (d : Nat) : List MeetingTime :=
  l.filter (fun m => m.day = d)

/-- All adjacent pairs of a list (`for i in range(len(times) - 1)`). -/
def adjPairs : List MeetingTime → List (MeetingTime × MeetingTime)
  | a :: b :: rest => (a, b) :: adjPairs (b :: rest)
  | _ => []

/-- The filter of `_find_consecutive_slots`: back-to-back and not
straddling the lunch break. -/
def consecOk (a b : MeetingTime) : Bool :=
  a.end_time = b.start_time &&
    !(hourOf a.start_time ≤ 13 && 14 ≤ hourOf b.end_time)

/-- `_find_consecutive_slots`: group the (non-break) meeting times by day,
sort each day by start time, and keep the adjacent pairs that are
back-to-back and do not straddle the lunch break. -/
def findConsecutiveSlots (mts : List MeetingTime) : List (MeetingTime × MeetingTime) :=
  (dedupDays mts).flatMap (fun d =>
    (adjPairs (sortByStart (slotsForDay mts d))).filter (fun p => consecOk p.1 p.2))

/-- The per-class body of `generate_initial_population`: fill the three
fields of one requirement from the oracle draws `rI`, `rR`, `rT`. -/
def initAssign (ga : GA) (rI rR rT : Nat) (c : Assignment) : Assignment :=
  let c1 : Assignment :=
    let avail := c.course.instructors
    if avail ≠ [] then { c with instructor := some (choiceD avail defaultInstructor rI) }
    else if ga.instructors ≠ [] then
      { c with instructor := some (choiceD ga.instructors defaultInstructor rI) }
    else { c with instructor := none }
  let c2 : Assignment :=
    let suitable := getSuitableRooms ga c1.course
    if suitable ≠ [] then { c1 with room := some (choiceD suitable defaultRoom rR) }
    else if ga.rooms ≠ [] then { c1 with room := some (choiceD ga.rooms defaultRoom rR) }
    else { c1 with room := none }
  if c2.duration = 2 then
    let cs := findConsecutiveSlots ga.meeting_times
    if cs ≠ [] then
      let p := choiceD cs (defaultMeetingTime, defaultMeetingTime) rT
      { c2 with meeting_time := some p.1, consecutive_slots := [p.1, p.2] }
    else { c2 with meeting_time := none, consecutive_slots := [] }
  else
    if ga.meeting_times ≠ [] then
      { c2 with meeting_time := some (choiceD ga.meeting_times defaultMeetingTime rT) }
    else { c2 with meeting_time := none }

/-- Externalized randomness: one function per `random.*` call site, indexed
by enough call-path coordinates to make distinct draws independent. -/
structure Oracle where
  initInstr : Nat → Nat → Nat
  initRoom : Nat → Nat → Nat
  initTime : Nat → Nat → Nat
  sample : Nat → Nat → List Nat
  parentA : Nat → Nat → Nat
  parentB : Nat → Nat → Nat
  cutR : Nat → Nat → Nat
  mutTrig : Nat → Nat → ℚ
  mutClass : Nat → Nat → Nat
  mutField : Nat → Nat → Nat
  mutRoll : Nat → Nat → Nat

/-- `generate_initial_population`: `population_size` deep copies of the
requirement list, each field filled by the three-tier fallback rules. -/
def generate_initial_population (ga : GA) (o : Oracle) : List Chromosome :=
  (List.range ga.population_size).map (fun p =>
    (List.range ga.all_classes.length).map (fun i =>
      initAssign ga (o.initInstr p i) (o.initRoom p i) (o.initTime p i)
        (ga.all_classes.getD i defaultAssignment)))

/-- Python `fitness_scores[i]` (samples drawn by `random.sample` are always
in range, so the default is unreachable in the GA's own calls). -/
def scoreAt (scores : List ℚ) (i : Nat) : ℚ := scores.getD i 0

/-- The winner lookup of one tournament draw:
`tournament_indices[tournament_fitness.index(max(tournament_fitness))]`. -/
def tournamentWinnerIdx (scores : List ℚ) (sample : List Nat) : Nat :=
  let tf := sample.map (scoreAt scores)
  sample.getD (firstIdxOf tf (listMaxQ tf)) 0

/-- `selection`: one tournament per population slot; draw `k` uses the
sampled index list `sample k`. -/
def selection (population : List Chromosome) (scores : List ℚ)
    (sample : Nat → List Nat) : List Chromosome :=
  (List.range population.length).map (fun k =>
    population.getD (tournamentWinnerIdx scores (sample k)) [])

/-- `crossover`: single-point splice.  The oracle draw `r` realizes
`random.randint(1, len - 1)` as `1 + r % (len - 1)`. -/
def crossover (p1 p2 : List α) (r : Nat) : List α × List α :=
  if p1.length ≠ p2.length then (p1, p2)
  else if p1.length < 2 then (p1, p2)
  else
    let cut := 1 + r % (p1.length - 1)
    (p1.take cut ++ p2.drop cut, p2.take cut ++ p1.drop cut)

/-- `mutate`: with the trigger drawn below `mutation_rate` and a nonempty
individual, re-roll one field of one class.  The duration-1 time branch
calls `random.choice(self.meeting_times)` without an emptiness guard in the
source, so it is embedded through `pyChoice` and can return `none`. -/
def mutate (ga : GA) (trig : ℚ) (ci fi roll : Nat) (ind : Chromosome) :
    Option Chromosome :=
  if trig < ga.mutation_rate ∧ ind ≠ [] then
    let k := ci % ind.length
    let a := ind.getD k defaultAssignment
    match fi % 3 with
    | 0 =>
      let avail := a.course.instructors
      if avail ≠ [] then
        some (ind.set k { a with instructor := some (choiceD avail defaultInstructor roll) })
      else if ga.instructors ≠ [] then
        some (ind.set k { a with instructor := some (choiceD ga.instructors defaultInstructor roll) })
      else some ind
    | 1 =>
      let suitable := getSuitableRooms ga a.course
      if suitable ≠ [] then
        some (ind.set k { a with room := some (choiceD suitable defaultRoom roll) })
      else if ga.rooms ≠ [] then
        some (ind.set k { a with room := some (choiceD ga.rooms defaultRoom roll) })
      else some ind
    | _ =>
      if a.duration = 2 then
        let cs := findConsecutiveSlots ga.meeting_times
        if cs ≠ [] then
          let p := choiceD cs (defaultMeetingTime, defaultMeetingTime) roll
          some (ind.set k { a with meeting_time := some p.1, consecutive_slots := [p.1, p.2] })
        else some ind
      else
        match pyChoice ga.meeting_times roll with
        | some mt => some (ind.set k { a with meeting_time := some mt })
        | none => none
  else some ind

/-- Stable insertion for `sorted(range(len(scores)), key=scores[i],
reverse=True)`: an index is placed before the first index with a score not
above its own, so equal scores keep original order. -/
def insertIdxDesc (scores : List ℚ) (i : Nat) : List Nat → List Nat
  | [] => [i]
  | j :: js =>
    if scoreAt scores j ≤ scoreAt scores i then i :: j :: js
    else j :: insertIdxDesc scores i js

/-- Python's stable descending index sort used by elitism. -/
def sortIdxDesc (scores : List ℚ) : List Nat → List Nat
  | [] => []
  | i :: is => insertIdxDesc scores i (sortIdxDesc scores is)

/-- The reproduction `while` loop: while the next generation is smaller
than the target, draw two parents, cross, mutate both, append both
children.  Each pass adds exactly two children, so `target + 1` units of
fuel always outlast the loop. -/
def fillPop (ga : GA) (o : Oracle) (g : Nat) (selected : List Chromosome)
    (target : Nat) : Nat → Nat → List Chromosome → Option (List Chromosome)
  | 0, _, acc => some acc
  | fuel + 1, j, acc =>
    if acc.length < target then do
      let p1 ← pyChoice selected (o.parentA g j)
      let p2 ← pyChoice selected (o.parentB g j)
      let pr := crossover p1 p2 (o.cutR g j)
      let c1 ← mutate ga (o.mutTrig g (2 * j)) (o.mutClass g (2 * j))
        (o.mutField g (2 * j)) (o.mutRoll g (2 * j)) pr.1
      let c2 ← mutate ga (o.mutTrig g (2 * j + 1)) (o.mutClass g (2 * j + 1))
        (o.mutField g (2 * j + 1)) (o.mutRoll g (2 * j + 1)) pr.2
      fillPop ga o g selected target fuel (j + 1) (acc ++ [c1, c2])
    else some acc

/-- One generation's replacement step of `evolve`: tournament selection,
elitism (`int(len(population) * elite_rate)` top indices by stable
descending sort), the reproduction loop, and the trim back to the old
population length. -/
def newGeneration (ga : GA) (o : Oracle) (g : Nat)
    (population : List Chromosome) (scores : List ℚ) : Option (List Chromosome) := do
  let selected := selection population scores (o.sample g)
  let eliteSize := (((population.length : ℚ) * ga.elite_rate).floor).toNat
  let eliteIdx := (sortIdxDesc scores (List.range scores.length)).take eliteSize
  let newPop := eliteIdx.map (fun i => population.getD i [])
  let filled ← fillPop ga o g selected population.length (population.length + 1) 0 newPop
  some (filled.take population.length)

/-- The truthiness-guarded completeness check of `evolve`:
`all(...) if best_individual else False`. -/
def bestIsFullyAssigned : Option Chromosome → Bool
  | none => false
  | some b => if b.isEmpty then false else b.all fullyAssignedB

/-- What one `evolve` run exposes: the retained best chromosome, its
fitness, and per executed generation the evaluated population together
with that generation's best fitness. -/
structure RunResult where
  best : Option Chromosome
  bestFitness : ℚ
  trace : List (List Chromosome × ℚ)
deriving DecidableEq

/-- The generational loop of `evolve`.  `fuel` is the remaining trip count
of `for generation in range(self.generations)`; `g` the generation index
used for oracle draws; `tr` the reversed trace so far. -/
def evolveLoop (ga : GA) (o : Oracle) :
    Nat → Nat → List Chromosome → ℚ → Option Chromosome → Nat →
    List (List Chromosome × ℚ) → Option RunResult
  | 0, _, _, bf, bi, _, tr => some ⟨bi, bf, tr.reverse⟩
  | fuel + 1, g, population, bf, bi, stall, tr => do
    let scores := population.map calculate_fitness
    let cur ← pyMax scores
    let curInd := population.getD (firstIdxOf scores cur) []
    let bf' := if bf < cur then cur else bf
    let bi' := if bf < cur then some curInd else bi
    let stall' := if bf < cur then 0 else stall + 1
    let tr' := (population, cur) :: tr
    if 200 ≤ stall' then some ⟨bi', bf', tr'.reverse⟩
    else if 90 ≤ bf' ∧ bestIsFullyAssigned bi' = true then some ⟨bi', bf', tr'.reverse⟩
    else do
      let next ← newGeneration ga o g population scores
      evolveLoop ga o fuel (g + 1) next bf' bi' stall' tr'

/-- `evolve`: initial population, then at most `generations` generational
iterations starting from best fitness `0` and no retained best. -/
def evolve (ga : GA) (o : Oracle) : Option RunResult :=
  evolveLoop ga o ga.generations 0 (generate_initial_population ga o) 0 none 0 []

/-- Modelled from the spec: the claimed time range of an assignment — for a
duration-2 assignment the span from the smaller of its two slots' start
times to the larger of their end times, for a duration-1 assignment its
single slot's range. -/
def specTimeRange (c : Assignment) : Nat × Nat :=
  if c.duration = 2 then
    match c.consecutive_slots with
    | [a, b] => (min a.start_time b.start_time, max a.end_time b.end_time)
    | _ => (0, 0)
  else
    match c.meeting_time with
    | some m => (m.start_time, m.end_time)
    | none => (0, 0)

/-- Modelled from the spec: the claimed tournament winner — a sampled
entrant achieving the draw's maximum fitness that has the lowest
population index among such entrants. -/
def isLowestIndexMaxEntrant (scores : List ℚ) (sample : List Nat) (w : Nat) : Prop :=
  w ∈ sample ∧ (∀ j ∈ sample, scoreAt scores j ≤ scoreAt scores w) ∧
    (∀ j ∈ sample, scoreAt scores j = scoreAt scores w → w ≤ j)

/-- Validity of the tournament sampling randomness: what Python's
`random.sample(range(N), min(5, N))` guarantees for `N ≥ 1` — a nonempty
list of in-range indices. -/
def SampleOk (o : Oracle) (n : Nat) : Prop :=
  ∀ g k, o.sample g k ≠ [] ∧ ∀ i ∈ o.sample g k, i < n

def mtA : MeetingTime := ⟨1, 0, 540, 600⟩

def mtB : MeetingTime := ⟨2, 0, 600, 660⟩

def mtC : MeetingTime := ⟨3, 1, 540, 600⟩

def instr1 : Instructor := ⟨1⟩

def instr2 : Instructor := ⟨2⟩

def room1 : Room := ⟨1, "Lecture", 60⟩

def room2 : Room := ⟨2, "Lecture", 60⟩

def sec1 : Section := ⟨1⟩

def sec2 : Section := ⟨2⟩

def course1 : Course := ⟨1, "Theory", 1, 30, 1, [instr1]⟩

def courseNone : Course := ⟨3, "Theory", 1, 30, 1, []⟩

def labCourse : Course := ⟨2, "Lab", 2, 30, 1, [instr1]⟩

def aFull1 : Assignment :=
  ⟨course1, sec1, 1, some instr1, some room1, some mtA, []⟩

def aFull2 : Assignment :=
  ⟨course1, sec2, 1, some instr2, some room2, some mtC, []⟩

def aConf2 : Assignment :=
  ⟨course1, sec2, 1, some instr1, some room2, some mtA, []⟩

def aLab1 : Assignment :=
  ⟨labCourse, sec1, 2, some instr1, some room1, some mtA, [mtA, mtB]⟩

def aLab2 : Assignment :=
  ⟨labCourse, sec2, 2, some instr1, some room2, some mtB, [mtB, mtA]⟩

def reqDur1 : Assignment := ⟨courseNone, sec1, 1, none, none, none, []⟩

/-- A catalog shape with a nonempty requirement list but empty instructor,
room, and meeting-time pools (the all-unassignable case). -/
def gaNoCatalog : GA := ⟨1, 1/10, 0, 1, [], [], [], [reqDur1]⟩

/-- An oracle whose mutation draws always trigger and always pick the time
field. -/
def oBad : Oracle :=
  ⟨fun _ _ => 0, fun _ _ => 0, fun _ _ => 0, fun _ _ => [0], fun _ _ => 0,
   fun _ _ => 0, fun _ _ => 0, fun _ _ => 0, fun _ _ => 0, fun _ _ => 2,
   fun _ _ => 0⟩

/-- A degenerate run: one chromosome, zero requirements, one generation. -/
def gaTriv : GA := ⟨1, 0, 0, 1, [], [], [], []⟩

def oTriv : Oracle :=
  ⟨fun _ _ => 0, fun _ _ => 0, fun _ _ => 0, fun _ _ => [0], fun _ _ => 0,
   fun _ _ => 0, fun _ _ => 0, fun _ _ => 0, fun _ _ => 0, fun _ _ => 0,
   fun _ _ => 0⟩

/-- The result of the `gaTriv`/`oTriv` run. -/
def rTriv : RunResult := ⟨none, 0, [([([] : Chromosome)], 0)]⟩

/-- Day of an assignment's meeting time (read only under full assignment). -/
def mtDayOf (c : Assignment) : Nat := (c.meeting_time.map MeetingTime.day).getD 0

/-- Identity of an assignment's instructor (read only under full assignment). -/
def instrIdOf (c : Assignment) : Nat := (c.instructor.map Instructor.id).getD 0

/-- Identity of an assignment's room (read only under full assignment). -/
def roomIdOf (c : Assignment) : Nat := (c.room.map Room.id).getD 0

example : calculate_fitness [] = 0 := by norm_num [calculate_fitness]

example : calculate_fitness [defaultAssignment] = 0 := by
  norm_num [calculate_fitness, unassignedCount, countConflictPairs, fullyAssignedB,
    defaultAssignment, max_def]

example :
    calculate_fitness
      [{ defaultAssignment with
          instructor := some ⟨1⟩, room := some ⟨1, "", 0⟩,
          meeting_time := some ⟨1, 0, 540, 600⟩ }] = 100 := by
  norm_num [calculate_fitness, unassignedCount, countConflictPairs, fullyAssignedB,
    defaultAssignment, max_def]

/-- Definitional unfolding of `calculate_fitness` with the `let`s inlined. -/
lemma calculate_fitness_eq (ind : Chromosome) :
    calculate_fitness ind =
      if ind.length = 0 then 0
      else
        if ((ind.length : ℚ) * ((ind.length : ℚ) - 1) / 2 + (ind.length : ℚ)) = 0 then
          (if ((countConflictPairs (ind.filter fullyAssignedB) : ℚ) +
              (unassignedCount ind : ℚ) * 10) = 0 then 100 else 0)
        else
          max 0 ((1 - ((countConflictPairs (ind.filter fullyAssignedB) : ℚ) +
              (unassignedCount ind : ℚ) * 10) /
            ((ind.length : ℚ) * ((ind.length : ℚ) - 1) / 2 + (ind.length : ℚ))) * 100) :=
  rfl

lemma maxPenalty_pos {n : Nat} (h : n ≠ 0) :
    0 < (n : ℚ) * ((n : ℚ) - 1) / 2 + (n : ℚ) := by
  have h1 : (1 : ℚ) ≤ (n : ℚ) := by exact_mod_cast Nat.one_le_iff_ne_zero.mpr h
  have h2 : 0 ≤ (n : ℚ) * ((n : ℚ) - 1) / 2 := by
    have := mul_nonneg (le_trans zero_le_one h1) (by linarith : (0 : ℚ) ≤ (n : ℚ) - 1)
    linarith
  linarith

/-- C1: `calculate_fitness` returns 0 on zero requirements; otherwise, with
`n` the requirement count, `u` the unassigned count and `c` the
conflicting-pair count, it returns `max 0 ((1 - (c + 10u)/(n(n-1)/2 + n)) * 100)`;
the result always lies in `[0, 100]`, and for `n ≥ 1` it equals `100`
exactly when `u = 0` and `c = 0`. -/
theorem C1_calculate_fitness_formula (ind : Chromosome) :
    (ind.length = 0 → calculate_fitness ind = 0) ∧
    (ind.length ≠ 0 →
      calculate_fitness ind =
        max 0 ((1 - ((countConflictPairs (ind.filter fullyAssignedB) : ℚ) +
            10 * (unassignedCount ind : ℚ)) /
          ((ind.length : ℚ) * ((ind.length : ℚ) - 1) / 2 + (ind.length : ℚ))) * 100)) ∧
    0 ≤ calculate_fitness ind ∧ calculate_fitness ind ≤ 100 ∧
    (ind.length ≠ 0 →
      (calculate_fitness ind = 100 ↔
        unassignedCount ind = 0 ∧ countConflictPairs (ind.filter fullyAssignedB) = 0)) := by
  rcases Nat.eq_zero_or_pos ind.length with hz | hp
  · rw [calculate_fitness_eq, if_pos hz]
    refine ⟨fun _ => rfl, fun h => absurd hz h, le_refl _, by norm_num, fun h => absurd hz h⟩
  · have hnz : ind.length ≠ 0 := Nat.pos_iff_ne_zero.mp hp
    have hM := maxPenalty_pos hnz
    set c : ℚ := (countConflictPairs (ind.filter fullyAssignedB) : ℚ) with hc
    set u : ℚ := (unassignedCount ind : ℚ) with hu
    set M : ℚ := (ind.length : ℚ) * ((ind.length : ℚ) - 1) / 2 + (ind.length : ℚ) with hMdef
    have hcu : c + u * 10 = c + 10 * u := by ring
    have hfit : calculate_fitness ind = max 0 ((1 - (c + 10 * u) / M) * 100) := by
      rw [calculate_fitness_eq, if_neg hnz, if_neg (ne_of_gt hM), hcu]
    have hc0 : 0 ≤ c := by rw [hc]; exact_mod_cast Nat.zero_le _
    have hu0 : 0 ≤ u := by rw [hu]; exact_mod_cast Nat.zero_le _
    have hp0 : 0 ≤ c + 10 * u := by linarith
    have hdiv0 : 0 ≤ (c + 10 * u) / M := div_nonneg hp0 (le_of_lt hM)
    have hx100 : (1 - (c + 10 * u) / M) * 100 ≤ 100 := by nlinarith
    refine ⟨fun h => absurd h hnz, fun _ => hfit, ?_, ?_, fun _ => ?_⟩
    · rw [hfit]; exact le_max_left _ _
    · rw [hfit]; exact max_le (by norm_num) hx100
    · rw [hfit]
      constructor
      · intro h100
        have hx : (1 - (c + 10 * u) / M) * 100 = 100 := by
          rcases max_choice (0 : ℚ) ((1 - (c + 10 * u) / M) * 100) with hm | hm
          · rw [hm] at h100; norm_num at h100
          · rw [hm] at h100; exact h100
        have hzero : (c + 10 * u) / M = 0 := by nlinarith
        have hpz : c + 10 * u = 0 := by
          have := (div_eq_zero_iff.mp hzero).resolve_right (ne_of_gt hM)
          exact this
        have hcz : c = 0 := by linarith
        have huz : u = 0 := by linarith
        rw [hu] at huz
        rw [hc] at hcz
        constructor
        · exact_mod_cast huz
        · exact_mod_cast hcz
      · rintro ⟨huz, hcz⟩
        have hcz' : c = 0 := by rw [hc, hcz]; norm_num
        have huz' : u = 0 := by rw [hu, huz]; norm_num
        rw [hcz', huz']
        norm_num

/-- C1 witness: the perfect-score instance of the formula at a concrete
two-requirement chromosome. -/
theorem C1_witness :
    calculate_fitness [aFull1, aFull2] = 100 ↔
      unassignedCount [aFull1, aFull2] = 0 ∧
        countConflictPairs (List.filter fullyAssignedB [aFull1, aFull2]) = 0 :=
  (C1_calculate_fitness_formula [aFull1, aFull2]).2.2.2.2 (by norm_num)

/-- Under full assignment and the documented two-slot shape of duration-2
assignments, the source's time range agrees with the spec's description. -/
lemma timeRange_eq_spec (c : Assignment) (hf : fullyAssignedB c = true)
    (hd : c.duration = 2 → ∃ a b, c.consecutive_slots = [a, b]) :
    getClassTimeRange c = specTimeRange c := by
  by_cases h2 : c.duration = 2
  · obtain ⟨a, b, hab⟩ := hd h2
    rw [getClassTimeRange, specTimeRange, hab, if_pos ⟨h2, by simp⟩, if_pos h2]
    rfl
  · have hms : c.meeting_time.isSome = true := by
      simp only [fullyAssignedB, Bool.and_eq_true] at hf
      exact hf.2
    obtain ⟨m, hm⟩ := Option.isSome_iff_exists.mp hms
    rw [getClassTimeRange, specTimeRange, if_neg (fun h => h2 h.1), if_neg h2, hm]

/-- C2: two fully assigned assignments are counted as conflicting exactly
when their meeting times fall on the same day, their time ranges satisfy
`max start < min end` (touching endpoints never overlap), and they share an
instructor, a room, or a section; the range of a duration-2 assignment is
the min-start/max-end span of its two slots, that of a duration-1
assignment its single slot's range. -/
theorem C2_conflict_characterization (c1 c2 : Assignment)
    (h1 : fullyAssignedB c1 = true) (h2 : fullyAssignedB c2 = true)
    (hd1 : c1.duration = 2 → ∃ a b, c1.consecutive_slots = [a, b])
    (hd2 : c2.duration = 2 → ∃ a b, c2.consecutive_slots = [a, b]) :
    hasConflict c1 c2 = true ↔
      mtDayOf c1 = mtDayOf c2 ∧
      max (specTimeRange c1).1 (specTimeRange c2).1 <
        min (specTimeRange c1).2 (specTimeRange c2).2 ∧
      (instrIdOf c1 = instrIdOf c2 ∨ roomIdOf c1 = roomIdOf c2 ∨
        c1.sect.id = c2.sect.id) := by
  simp only [fullyAssignedB, Bool.and_eq_true] at h1 h2
  obtain ⟨m1, hm1⟩ := Option.isSome_iff_exists.mp h1.2
  obtain ⟨m2, hm2⟩ := Option.isSome_iff_exists.mp h2.2
  obtain ⟨i1, hi1⟩ := Option.isSome_iff_exists.mp h1.1.1
  obtain ⟨i2, hi2⟩ := Option.isSome_iff_exists.mp h2.1.1
  obtain ⟨r1, hr1⟩ := Option.isSome_iff_exists.mp h1.1.2
  obtain ⟨r2, hr2⟩ := Option.isSome_iff_exists.mp h2.1.2
  have ht1 := timeRange_eq_spec c1 (by simp [fullyAssignedB, h1.1.1, h1.1.2, h1.2]) hd1
  have ht2 := timeRange_eq_spec c2 (by simp [fullyAssignedB, h2.1.1, h2.1.2, h2.2]) hd2
  rw [hasConflict, sameTimeSlot, hm1, hm2, ht1, ht2]
  rw [mtDayOf, instrIdOf, roomIdOf, mtDayOf, instrIdOf, roomIdOf,
    hm1, hm2, hi1, hi2, hr1, hr2]
  by_cases hday : m1.day = m2.day
  · simp only [hday, ne_eq, not_true_eq_false, if_false, ite_not]
    by_cases hov :
        max (specTimeRange c1).1 (specTimeRange c2).1 <
          min (specTimeRange c1).2 (specTimeRange c2).2
    · simp [hov, hi1, hi2, hr1, hr2, hday, or_assoc]
    · simp [hov]
  · simp [hday]

/-- C2 witness: two overlapping duration-2 lab assignments sharing an
instructor are counted as a conflict. -/
theorem C2_witness : hasConflict aLab1 aLab2 = true :=
  (C2_conflict_characterization aLab1 aLab2 (by decide) (by decide)
    (fun _ => ⟨mtA, mtB, rfl⟩) (fun _ => ⟨mtB, mtA, rfl⟩)).mpr
    (by refine ⟨by decide, by decide, Or.inl (by decide)⟩)

/-- C3: when the non-break time-slot pool is empty and a triggered mutation
re-rolls the time field of a duration-1 assignment, the source's unguarded
`random.choice(self.meeting_times)` raises (embedded: returns `none`),
whereas initialization on the same catalog leaves the field unset and
returns normally — `mutate` does not use the same fallback rule there. -/
theorem C3_mutate_time_reroll_raises :
    mutate gaNoCatalog 0 0 2 0 [reqDur1] = none ∧
      (initAssign gaNoCatalog 0 0 0 reqDur1).meeting_time = none := by
  constructor
  · norm_num [mutate, gaNoCatalog, reqDur1, courseNone, pyChoice, defaultAssignment]
  · norm_num [initAssign, gaNoCatalog, reqDur1, courseNone, getSuitableRooms]

lemma getD_take_of_lt (l : List α) (n i : Nat) (d : α) (h : i < n) (h2 : i < l.length) :
    (l.take n).getD i d = l.getD i d := by
  have hlt : i < (l.take n).length := by simp; omega
  rw [List.getD_eq_getElem _ _ hlt, List.getElem_take, List.getD_eq_getElem _ _ h2]

lemma getD_drop_add (l : List α) (n i : Nat) (d : α) (h : n + i < l.length) :
    (l.drop n).getD i d = l.getD (n + i) d := by
  have hlt : i < (l.drop n).length := by simp; omega
  rw [List.getD_eq_getElem _ _ hlt, List.getElem_drop, List.getD_eq_getElem _ _ h]

/-- C6: for equal-length parents of length at least 2, the cut point lies in
`1..length-1` (and every such cut point is reachable from some draw), both
children have the parents' length, and every gene position is taken from
exactly one parent, split at the cut; for unequal lengths or length below 2
the parents are returned unchanged. -/
theorem C6_crossover_splice {α : Type} (p1 p2 : List α) (r : Nat) :
    (p1.length = p2.length → 2 ≤ p1.length →
      (1 ≤ 1 + r % (p1.length - 1) ∧ 1 + r % (p1.length - 1) ≤ p1.length - 1) ∧
      (crossover p1 p2 r).1.length = p1.length ∧
      (crossover p1 p2 r).2.length = p1.length ∧
      (∀ (d : α) i, i < p1.length →
        ((crossover p1 p2 r).1.getD i d =
          if i < 1 + r % (p1.length - 1) then p1.getD i d else p2.getD i d) ∧
        ((crossover p1 p2 r).2.getD i d =
          if i < 1 + r % (p1.length - 1) then p2.getD i d else p1.getD i d))) ∧
    (∀ c, 1 ≤ c → c ≤ p1.length - 1 → 1 + (c - 1) % (p1.length - 1) = c) ∧
    ((p1.length ≠ p2.length ∨ p1.length < 2) → crossover p1 p2 r = (p1, p2)) := by
  refine ⟨?_, ?_, ?_⟩
  · intro hlen hn
    have hn1 : 0 < p1.length - 1 := by omega
    have hcutlt : r % (p1.length - 1) < p1.length - 1 := Nat.mod_lt _ hn1
    set cut := 1 + r % (p1.length - 1) with hcut
    have hcln : cut ≤ p1.length := by omega
    have hcross :
        crossover p1 p2 r = (p1.take cut ++ p2.drop cut, p2.take cut ++ p1.drop cut) := by
      rw [crossover, if_neg (not_ne_iff.mpr hlen), if_neg (by omega)]
    refine ⟨⟨by omega, by omega⟩, ?_, ?_, ?_⟩
    · rw [hcross]; simp [List.length_take, List.length_drop]; omega
    · rw [hcross]; simp [List.length_take, List.length_drop]; omega
    · intro d i hi
      have htake1 : (p1.take cut).length = cut := by simp; omega
      have htake2 : (p2.take cut).length = cut := by simp; omega
      constructor
      · rw [hcross]
        by_cases hic : i < cut
        · rw [if_pos hic, List.getD_append _ _ _ _ (by omega)]
          exact getD_take_of_lt _ _ _ _ hic hi
        · rw [if_neg hic, List.getD_append_right _ _ _ _ (by omega)]
          rw [htake1]
          have := getD_drop_add p2 cut (i - cut) d (by omega)
          rw [this]
          congr 1
          omega
      · rw [hcross]
        by_cases hic : i < cut
        · rw [if_pos hic, List.getD_append _ _ _ _ (by omega)]
          exact getD_take_of_lt _ _ _ _ hic (by omega)
        · rw [if_neg hic, List.getD_append_right _ _ _ _ (by omega)]
          rw [htake2]
          have := getD_drop_add p1 cut (i - cut) d (by omega)
          rw [this]
          congr 1
          omega
  · intro c hc1 hc2
    have : c - 1 < p1.length - 1 := by omega
    rw [Nat.mod_eq_of_lt this]
    omega
  · intro h
    rcases h with h | h
    · rw [crossover, if_pos h]
    · by_cases he : p1.length ≠ p2.length
      · rw [crossover, if_pos he]
      · rw [crossover, if_neg he, if_pos h]

/-- C6 witness: the splice at a concrete pair of length-2 parents. -/
theorem C6_witness :
    (crossover [10, 20] [30, 40] 0).1.length = 2 ∧
    (crossover [10, 20] [30, 40] 0).1.getD 1 99 = ([30, 40] : List Nat).getD 1 99 := by
  have h := (C6_crossover_splice ([10, 20] : List Nat) [30, 40] 0).1 rfl (by norm_num)
  refine ⟨h.2.1, ?_⟩
  have h2 := (h.2.2.2 99 1 (by norm_num)).1
  rw [h2]
  norm_num

lemma mem_insertByStart (m x : MeetingTime) (l : List MeetingTime) :
    x ∈ insertByStart m l ↔ x = m ∨ x ∈ l := by
  induction l with
  | nil => simp [insertByStart]
  | cons y ys ih =>
    rw [insertByStart]
    split
    · simp [List.mem_cons]
    · simp only [List.mem_cons, ih]
      tauto

lemma mem_sortByStart (x : MeetingTime) (l : List MeetingTime) :
    x ∈ sortByStart l ↔ x ∈ l := by
  induction l with
  | nil => simp [sortByStart]
  | cons y ys ih =>
    rw [sortByStart, mem_insertByStart]
    simp [ih]

lemma adjPairs_mem (a b : MeetingTime) :
    ∀ (l : List MeetingTime), (a, b) ∈ adjPairs l → a ∈ l ∧ b ∈ l
  | [] => by simp [adjPairs]
  | [x] => by simp [adjPairs]
  | x :: y :: rest => by
    intro h
    rw [adjPairs] at h
    rcases List.mem_cons.mp h with h1 | h2
    · rw [Prod.ext_iff] at h1
      exact ⟨by simp only [List.mem_cons]; exact Or.inl h1.1,
        by simp only [List.mem_cons]; exact Or.inr (Or.inl h1.2)⟩
    · have := adjPairs_mem a b (y :: rest) h2
      exact ⟨List.mem_cons_of_mem x this.1, List.mem_cons_of_mem x this.2⟩

lemma mem_dedupDays_aux (l : List MeetingTime) : ∀ (acc : List Nat) (d : Nat),
    d ∈ l.foldl (fun acc m => if m.day ∈ acc then acc else acc ++ [m.day]) acc ↔
      d ∈ acc ∨ ∃ m ∈ l, m.day = d := by
  induction l with
  | nil => simp
  | cons x xs ih =>
    intro acc d
    rw [List.foldl_cons]
    by_cases hx : x.day ∈ acc
    · rw [if_pos hx, ih]
      constructor
      · rintro (hd | ⟨m, hm, hday⟩)
        · exact Or.inl hd
        · exact Or.inr ⟨m, List.mem_cons_of_mem x hm, hday⟩
      · rintro (hd | ⟨m, hm, hday⟩)
        · exact Or.inl hd
        · rcases List.mem_cons.mp hm with rfl | hm2
          · exact Or.inl (hday ▸ hx)
          · exact Or.inr ⟨m, hm2, hday⟩
    · rw [if_neg hx, ih]
      constructor
      · rintro (hd | ⟨m, hm, hday⟩)
        · rcases List.mem_append.mp hd with h1 | h2
          · exact Or.inl h1
          · exact Or.inr ⟨x, List.mem_cons_self x xs, (List.mem_singleton.mp h2).symm⟩
        · exact Or.inr ⟨m, List.mem_cons_of_mem x hm, hday⟩
      · rintro (hd | ⟨m, hm, hday⟩)
        · exact Or.inl (List.mem_append_left _ hd)
        · rcases List.mem_cons.mp hm with rfl | hm2
          · exact Or.inl (List.mem_append_right _ (by simp [hday]))
          · exact Or.inr ⟨m, hm2, hday⟩

lemma mem_dedupDays (l : List MeetingTime) (d : Nat) :
    d ∈ dedupDays l ↔ ∃ m ∈ l, m.day = d := by
  rw [dedupDays, mem_dedupDays_aux]
  simp

lemma mem_slotsForDay (mts : List MeetingTime) (d : Nat) (a : MeetingTime) :
    a ∈ slotsForDay mts d ↔ a ∈ mts ∧ a.day = d := by
  simp [slotsForDay, List.mem_filter]

/-- C7: the consecutive-slot discovery returns exactly the pairs `(a, b)`
such that `b` immediately follows `a` in the start-time-sorted order of
`a`'s day, `a.end = b.start`, and the pair does not straddle the lunch
break; in particular every returned pair is same-day, back-to-back, and
non-straddling. -/
theorem C7_find_consecutive_slots (mts : List MeetingTime) (a b : MeetingTime) :
    (a, b) ∈ findConsecutiveSlots mts ↔
      a.day = b.day ∧
      (a, b) ∈ adjPairs (sortByStart (slotsForDay mts a.day)) ∧
      a.end_time = b.start_time ∧
      ¬(hourOf a.start_time ≤ 13 ∧ 14 ≤ hourOf b.end_time) := by
  rw [findConsecutiveSlots, List.mem_flatMap]
  constructor
  · rintro ⟨d, hd, hmem⟩
    obtain ⟨hadj, hok⟩ := List.mem_filter.mp hmem
    obtain ⟨ha, hb⟩ := adjPairs_mem a b _ hadj
    have had : a.day = d := ((mem_slotsForDay mts d a).mp ((mem_sortByStart a _).mp ha)).2
    have hbd : b.day = d := ((mem_slotsForDay mts d b).mp ((mem_sortByStart b _).mp hb)).2
    simp only [consecOk, Bool.and_eq_true, Bool.not_eq_true', Bool.and_eq_false_iff,
      decide_eq_true_eq, decide_eq_false_iff_not] at hok
    refine ⟨had.trans hbd.symm, had ▸ hadj, hok.1, ?_⟩
    rintro ⟨hlt, hge⟩
    rcases hok.2 with h | h
    · exact h (by simpa using hlt)
    · exact h (by simpa using hge)
  · rintro ⟨hday, hadj, hend, hlunch⟩
    obtain ⟨ha, _⟩ := adjPairs_mem a b _ hadj
    have hamem : a ∈ mts := ((mem_slotsForDay mts a.day a).mp ((mem_sortByStart a _).mp ha)).1
    refine ⟨a.day, (mem_dedupDays mts a.day).mpr ⟨a, hamem, rfl⟩, ?_⟩
    refine List.mem_filter.mpr ⟨hadj, ?_⟩
    simp only [consecOk, Bool.and_eq_true, Bool.not_eq_true', Bool.and_eq_false_iff,
      decide_eq_true_eq, decide_eq_false_iff_not]
    refine ⟨hend, ?_⟩
    by_cases h13 : hourOf a.start_time ≤ 13
    · right
      intro h14
      exact hlunch ⟨h13, by simpa using h14⟩
    · left
      simpa using h13

lemma unassignedCount_eq_zero {ch : Chromosome}
    (hf : ∀ c ∈ ch, fullyAssignedB c = true) : unassignedCount ch = 0 := by
  rw [unassignedCount, List.length_eq_zero]
  exact List.filter_eq_nil_iff.mpr (fun a ha => by simp [hf a ha])

lemma filter_fullyAssigned_eq_self {ch : Chromosome}
    (hf : ∀ c ∈ ch, fullyAssignedB c = true) : ch.filter fullyAssignedB = ch :=
  List.filter_eq_self.mpr hf

lemma two_mul_countConflictPairs_le :
    ∀ (l : List Assignment), 2 * countConflictPairs l ≤ l.length * (l.length - 1)
  | [] => by simp [countConflictPairs]
  | c :: rest => by
    have ih := two_mul_countConflictPairs_le rest
    have hf : (rest.filter (fun d => hasConflict c d)).length ≤ rest.length :=
      List.length_filter_le _ _
    rw [countConflictPairs]
    simp only [List.length_cons, Nat.add_sub_cancel]
    cases rest with
    | nil => simp [countConflictPairs]
    | cons x xs =>
      simp only [List.length_cons, Nat.add_sub_cancel] at ih hf ⊢
      nlinarith [ih, hf]

/-- C8: on fully assigned chromosomes of equal length at least 2, one more
conflicting pair strictly decreases `calculate_fitness`. -/
theorem C8_conflict_monotone (ch1 ch2 : Chromosome)
    (hlen : ch1.length = ch2.length) (hn : 2 ≤ ch1.length)
    (hf1 : ∀ c ∈ ch1, fullyAssignedB c = true)
    (hf2 : ∀ c ∈ ch2, fullyAssignedB c = true)
    (hconf : countConflictPairs ch2 = countConflictPairs ch1 + 1) :
    calculate_fitness ch2 < calculate_fitness ch1 := by
  have hnz1 : ch1.length ≠ 0 := by omega
  have hM := maxPenalty_pos hnz1
  set n : ℚ := (ch1.length : ℚ) with hns
  set M : ℚ := n * (n - 1) / 2 + n with hMdef
  have hMne : M ≠ 0 := ne_of_gt hM
  have hcast2 : ((ch2.length : ℚ)) = n := by rw [hns]; exact_mod_cast hlen.symm
  have hbound : 2 * countConflictPairs ch2 ≤ ch2.length * (ch2.length - 1) :=
    two_mul_countConflictPairs_le ch2
  have hone : (1 : Nat) ≤ ch2.length := by omega
  have hboundQ : (countConflictPairs ch2 : ℚ) ≤ n * (n - 1) / 2 := by
    have h1 : ((2 * countConflictPairs ch2 : Nat) : ℚ) ≤
        ((ch2.length * (ch2.length - 1) : Nat) : ℚ) := by exact_mod_cast hbound
    push_cast [Nat.cast_sub hone] at h1
    rw [← hcast2]
    linarith
  have hfit : ∀ (ch : Chromosome), ch.length = ch1.length →
      (∀ c ∈ ch, fullyAssignedB c = true) →
      calculate_fitness ch = max 0 ((1 - (countConflictPairs ch : ℚ) / M) * 100) := by
    intro ch hl hfc
    rw [calculate_fitness_eq, if_neg (by rw [hl]; exact hnz1),
      filter_fullyAssigned_eq_self hfc, unassignedCount_eq_zero hfc, hl]
    rw [← hns, ← hMdef, if_neg hMne]
    norm_num
  have hc1le : (countConflictPairs ch1 : ℚ) ≤ n * (n - 1) / 2 := by
    have h2 := hboundQ
    rw [hconf] at h2
    push_cast at h2
    linarith
  have hval : ∀ (c : ℚ), 0 ≤ c → c ≤ n * (n - 1) / 2 →
      max 0 ((1 - c / M) * 100) = (1 - c / M) * 100 := by
    intro c hc0 hcle
    have h2n : (2 : ℚ) ≤ n := by rw [hns]; exact_mod_cast hn
    have hlt : c < M := by rw [hMdef]; linarith
    have hdiv : c / M < 1 := (div_lt_one hM).mpr hlt
    apply max_eq_right
    nlinarith
  rw [hfit ch1 rfl hf1, hfit ch2 hlen.symm hf2]
  rw [hval _ (by positivity) hboundQ, hval _ (by positivity) hc1le]
  have hc12 : (countConflictPairs ch1 : ℚ) < (countConflictPairs ch2 : ℚ) := by
    rw [hconf]; push_cast; linarith
  have hdivlt : (countConflictPairs ch1 : ℚ) / M < (countConflictPairs ch2 : ℚ) / M := by
    have hmul := mul_lt_mul_of_pos_right hc12 (inv_pos.mpr hM)
    simpa [div_eq_mul_inv] using hmul
  linarith

/-- C8 witness: adding one conflicting pair to a concrete fully assigned
two-requirement chromosome strictly lowers its fitness. -/
theorem C8_witness :
    calculate_fitness [aFull1, aConf2] < calculate_fitness [aFull1, aFull2] :=
  C8_conflict_monotone [aFull1, aFull2] [aFull1, aConf2] rfl (by decide)
    (by decide) (by decide) (by decide)

lemma le_foldl_max (xs : List ℚ) : ∀ (a : ℚ),
    a ≤ xs.foldl max a ∧ ∀ x ∈ xs, x ≤ xs.foldl max a := by
  induction xs with
  | nil => exact fun a => ⟨le_refl a, by simp⟩
  | cons y ys ih =>
    intro a
    rw [List.foldl_cons]
    refine ⟨le_trans (le_max_left a y) (ih (max a y)).1, ?_⟩
    intro x hx
    rcases List.mem_cons.mp hx with rfl | hx2
    · exact le_trans (le_max_right a x) (ih (max a x)).1
    · exact (ih (max a y)).2 x hx2

lemma foldl_max_mem (xs : List ℚ) : ∀ (a : ℚ),
    xs.foldl max a = a ∨ xs.foldl max a ∈ xs := by
  induction xs with
  | nil => exact fun a => Or.inl rfl
  | cons y ys ih =>
    intro a
    rw [List.foldl_cons]
    rcases ih (max a y) with h | h
    · rw [h]
      rcases max_choice a y with h2 | h2
      · exact Or.inl h2
      · exact Or.inr (by rw [h2]; exact List.mem_cons_self y ys)
    · exact Or.inr (List.mem_cons_of_mem y h)

lemma listMaxQ_mem {l : List ℚ} (h : l ≠ []) : listMaxQ l ∈ l := by
  cases l with
  | nil => exact absurd rfl h
  | cons x xs =>
    rw [listMaxQ]
    rcases foldl_max_mem xs x with h2 | h2
    · rw [h2]; exact List.mem_cons_self x xs
    · exact List.mem_cons_of_mem x h2

lemma le_listMaxQ {l : List ℚ} {x : ℚ} (hx : x ∈ l) : x ≤ listMaxQ l := by
  cases l with
  | nil => simp at hx
  | cons y ys =>
    rw [listMaxQ]
    rcases List.mem_cons.mp hx with rfl | h2
    · exact (le_foldl_max ys x).1
    · exact (le_foldl_max ys y).2 x h2

lemma firstIdxOf_lt_length {l : List ℚ} {v : ℚ} (h : v ∈ l) :
    firstIdxOf l v < l.length := by
  induction l with
  | nil => simp at h
  | cons x xs ih =>
    rw [firstIdxOf]
    by_cases hx : x = v
    · simp [hx]
    · rcases List.mem_cons.mp h with rfl | h2
      · exact absurd rfl hx
      · rw [if_neg hx]
        simpa using ih h2

lemma getD_firstIdxOf {l : List ℚ} {v : ℚ} (h : v ∈ l) :
    l.getD (firstIdxOf l v) 0 = v := by
  induction l with
  | nil => simp at h
  | cons x xs ih =>
    rw [firstIdxOf]
    by_cases hx : x = v
    · simp [hx]
    · rcases List.mem_cons.mp h with rfl | h2
      · exact absurd rfl hx
      · rw [if_neg hx]
        simpa using ih h2

lemma firstIdxOf_earlier {l : List ℚ} {v : ℚ} :
    ∀ {q : Nat}, q < firstIdxOf l v → l.getD q 0 ≠ v := by
  induction l with
  | nil => intro q hq; rw [firstIdxOf] at hq; omega
  | cons x xs ih =>
    intro q hq
    rw [firstIdxOf] at hq
    by_cases hx : x = v
    · rw [if_pos hx] at hq; omega
    · rw [if_neg hx] at hq
      cases q with
      | zero => simpa using hx
      | succ q2 =>
        have : q2 < firstIdxOf xs v := by omega
        simpa using ih this

/-- C4 counterexample: with population fitnesses `[1, 1]` and the tournament
sample drawn in order `[1, 0]`, the code's winner is index 1 — the first
maximal entrant in sample order — not the lowest maximal population index 0
claimed by the spec. -/
theorem C4_counterexample :
    ¬ isLowestIndexMaxEntrant [1, 1] [1, 0] (tournamentWinnerIdx [1, 1] [1, 0]) := by
  have hw : tournamentWinnerIdx [1, 1] [1, 0] = 1 := by
    norm_num [tournamentWinnerIdx, scoreAt, listMaxQ, firstIdxOf]
  rw [hw, isLowestIndexMaxEntrant]
  rintro ⟨-, -, hmin⟩
  have := hmin 0 (by norm_num) (by norm_num [scoreAt])
  omega

/-- C4 (amended): `selection` returns exactly `N` chromosomes, slot `k`
being the population entry at the winner index of draw `k`; the winner of a
draw on a nonempty sample is the entrant at the earliest position in sample
order achieving the sample's maximum fitness (not the lowest population
index among maximal entrants). -/
theorem C4_selection_tournament (pop : List Chromosome) (scores : List ℚ)
    (sample : Nat → List Nat) :
    (selection pop scores sample).length = pop.length ∧
    (∀ k, k < pop.length → (selection pop scores sample).getD k [] =
        pop.getD (tournamentWinnerIdx scores (sample k)) []) ∧
    (∀ s : List Nat, s ≠ [] →
      ∃ p, p < s.length ∧ tournamentWinnerIdx scores s = s.getD p 0 ∧
        (∀ j ∈ s, scoreAt scores j ≤ scoreAt scores (s.getD p 0)) ∧
        (∀ q, q < p → scoreAt scores (s.getD q 0) < scoreAt scores (s.getD p 0))) := by
  refine ⟨by simp [selection], ?_, ?_⟩
  · intro k hk
    have hk2 : k < (selection pop scores sample).length := by simp [selection]; omega
    rw [List.getD_eq_getElem _ _ hk2]
    simp [selection]
  · intro s hs
    set tf := s.map (scoreAt scores) with htf
    have htfne : tf ≠ [] := by
      rw [htf]
      simpa using hs
    have hmem : listMaxQ tf ∈ tf := listMaxQ_mem htfne
    set p := firstIdxOf tf (listMaxQ tf) with hp
    have hplen : p < tf.length := firstIdxOf_lt_length hmem
    have hplen2 : p < s.length := by simpa [htf] using hplen
    have hgetDmap : ∀ q, q < s.length → tf.getD q 0 = scoreAt scores (s.getD q 0) := by
      intro q hq
      rw [htf, List.getD_eq_getElem _ _ (by simpa using hq), List.getElem_map,
        List.getD_eq_getElem _ _ hq]
    have hatp : scoreAt scores (s.getD p 0) = listMaxQ tf := by
      rw [← hgetDmap p hplen2, hp, getD_firstIdxOf hmem]
    refine ⟨p, hplen2, rfl, ?_, ?_⟩
    · intro j hj
      rw [hatp]
      exact le_listMaxQ (by rw [htf]; exact List.mem_map_of_mem _ hj)
    · intro q hq
      have hqlen : q < s.length := by omega
      have hne : tf.getD q 0 ≠ listMaxQ tf := firstIdxOf_earlier (hp ▸ hq)
      have hle : tf.getD q 0 ≤ listMaxQ tf := by
        apply le_listMaxQ
        rw [List.getD_eq_getElem _ _ (by simpa [htf] using hqlen)]
        exact List.getElem_mem _
      rw [hatp, ← hgetDmap q hqlen]
      exact lt_of_le_of_ne hle hne

/-- C4 witness: the amended selection property applied at a concrete
two-chromosome population. -/
theorem C4_witness :
    (selection [[aFull1], [aFull2]] [1, 1] (fun _ => [1, 0])).getD 0 [] =
      [[aFull1], [aFull2]].getD (tournamentWinnerIdx [1, 1] [1, 0]) [] :=
  (C4_selection_tournament [[aFull1], [aFull2]] [1, 1] (fun _ => [1, 0])).2.1 0
    (by norm_num)

lemma pyChoice_mem {l : List α} {r : Nat} {x : α} (h : pyChoice l r = some x) :
    x ∈ l := by
  cases l with
  | nil => simp [pyChoice] at h
  | cons y ys =>
    rw [pyChoice] at h
    injection h with h2
    have hlt : r % (ys.length + 1) < (y :: ys).length := by
      simp [Nat.mod_lt]
    rw [List.getD_eq_getElem _ _ hlt] at h2
    rw [← h2]
    exact List.getElem_mem _

lemma mutate_length {ga : GA} {t : ℚ} {ci fi roll : Nat} {ind ind2 : Chromosome}
    (h : mutate ga t ci fi roll ind = some ind2) : ind2.length = ind.length := by
  simp only [mutate] at h
  repeat' split at h
  all_goals
    first
      | (injection h with h2; simp [← h2])
      | (exact absurd h (by simp))

lemma crossover_lengths (p1 p2 : List α) (r : Nat) :
    (crossover p1 p2 r).1.length = p1.length ∧
      (crossover p1 p2 r).2.length = p2.length := by
  rw [crossover]
  split
  · exact ⟨rfl, rfl⟩
  · split
    · exact ⟨rfl, rfl⟩
    · rename_i hne hlt
      have hlen : p1.length = p2.length := not_ne_iff.mp hne
      have hn2 : 2 ≤ p1.length := by omega
      have hmod : r % (p1.length - 1) < p1.length - 1 := Nat.mod_lt _ (by omega)
      constructor
      · simp only [List.length_append, List.length_take, List.length_drop]
        omega
      · simp only [List.length_append, List.length_take, List.length_drop]
        omega

lemma mem_insertIdxDesc {scores : List ℚ} {i x : Nat} :
    ∀ {l : List Nat}, x ∈ insertIdxDesc scores i l → x = i ∨ x ∈ l := by
  intro l
  induction l with
  | nil => simp [insertIdxDesc]
  | cons y ys ih =>
    rw [insertIdxDesc]
    split
    · simp [List.mem_cons]
    · intro h
      rcases List.mem_cons.mp h with rfl | h2
      · exact Or.inr (List.mem_cons_self x ys)
      · rcases ih h2 with h3 | h3
        · exact Or.inl h3
        · exact Or.inr (List.mem_cons_of_mem y h3)

lemma mem_sortIdxDesc {scores : List ℚ} {x : Nat} :
    ∀ {l : List Nat}, x ∈ sortIdxDesc scores l → x ∈ l := by
  intro l
  induction l with
  | nil => simp [sortIdxDesc]
  | cons y ys ih =>
    rw [sortIdxDesc]
    intro h
    rcases mem_insertIdxDesc h with rfl | h2
    · exact List.mem_cons_self x ys
    · exact List.mem_cons_of_mem y (ih h2)

lemma tournamentWinnerIdx_mem {scores : List ℚ} {s : List Nat} (hs : s ≠ []) :
    tournamentWinnerIdx scores s ∈ s := by
  rw [tournamentWinnerIdx]
  have htfne : s.map (scoreAt scores) ≠ [] := by simpa using hs
  have hmem := listMaxQ_mem htfne
  have hplen : firstIdxOf (s.map (scoreAt scores)) (listMaxQ (s.map (scoreAt scores))) <
      s.length := by
    have := firstIdxOf_lt_length hmem
    simpa using this
  rw [List.getD_eq_getElem _ _ hplen]
  exact List.getElem_mem _

lemma selection_mem {pop : List Chromosome} {scores : List ℚ} {sample : Nat → List Nat}
    (hok : ∀ k, sample k ≠ [] ∧ ∀ i ∈ sample k, i < pop.length) :
    ∀ ch ∈ selection pop scores sample, ch ∈ pop := by
  intro ch hch
  rw [selection] at hch
  obtain ⟨k, -, hk2⟩ := List.mem_map.mp hch
  have hwin : tournamentWinnerIdx scores (sample k) ∈ sample k :=
    tournamentWinnerIdx_mem (hok k).1
  have hlt : tournamentWinnerIdx scores (sample k) < pop.length := (hok k).2 _ hwin
  rw [← hk2, List.getD_eq_getElem _ _ hlt]
  exact List.getElem_mem _

lemma selection_length (pop : List Chromosome) (scores : List ℚ)
    (sample : Nat → List Nat) : (selection pop scores sample).length = pop.length := by
  simp [selection]

lemma fillPop_length (ga : GA) (o : Oracle) (g : Nat) (selected : List Chromosome)
    (target : Nat) : ∀ (fuel j : Nat) (acc out : List Chromosome),
    fillPop ga o g selected target fuel j acc = some out →
    min target (acc.length + 2 * fuel) ≤ out.length := by
  intro fuel
  induction fuel with
  | zero =>
    intro j acc out h
    rw [fillPop] at h
    injection h with h2
    rw [← h2]
    omega
  | succ fuel ih =>
    intro j acc out h
    rw [fillPop] at h
    split at h
    · rcases hp1 : pyChoice selected (o.parentA g j) with _ | p1 <;> rw [hp1] at h
      · simp at h
      simp only [Option.bind_eq_bind, Option.some_bind] at h
      rcases hp2 : pyChoice selected (o.parentB g j) with _ | p2 <;> rw [hp2] at h
      · simp at h
      simp only [Option.bind_eq_bind, Option.some_bind] at h
      rcases hm1 : mutate ga (o.mutTrig g (2 * j)) (o.mutClass g (2 * j))
          (o.mutField g (2 * j)) (o.mutRoll g (2 * j))
          (crossover p1 p2 (o.cutR g j)).1 with _ | c1 <;> rw [hm1] at h
      · simp at h
      simp only [Option.bind_eq_bind, Option.some_bind] at h
      rcases hm2 : mutate ga (o.mutTrig g (2 * j + 1)) (o.mutClass g (2 * j + 1))
          (o.mutField g (2 * j + 1)) (o.mutRoll g (2 * j + 1))
          (crossover p1 p2 (o.cutR g j)).2 with _ | c2 <;> rw [hm2] at h
      · simp at h
      simp only [Option.bind_eq_bind, Option.some_bind] at h
      have hrec := ih (j + 1) (acc ++ [c1, c2]) out h
      simp only [List.length_append, List.length_cons, List.length_nil] at hrec
      omega
    · injection h with h2
      rw [← h2]
      rename_i hge
      omega

lemma fillPop_mem (ga : GA) (o : Oracle) (g : Nat) (selected : List Chromosome)
    (target R : Nat) (hsel : ∀ ch ∈ selected, ch.length = R) :
    ∀ (fuel j : Nat) (acc out : List Chromosome), (∀ ch ∈ acc, ch.length = R) →
    fillPop ga o g selected target fuel j acc = some out →
    ∀ ch ∈ out, ch.length = R := by
  intro fuel
  induction fuel with
  | zero =>
    intro j acc out hacc h
    rw [fillPop] at h
    injection h with h2
    rw [← h2]
    exact hacc
  | succ fuel ih =>
    intro j acc out hacc h
    rw [fillPop] at h
    split at h
    · rcases hp1 : pyChoice selected (o.parentA g j) with _ | p1 <;> rw [hp1] at h
      · simp at h
      simp only [Option.bind_eq_bind, Option.some_bind] at h
      rcases hp2 : pyChoice selected (o.parentB g j) with _ | p2 <;> rw [hp2] at h
      · simp at h
      simp only [Option.bind_eq_bind, Option.some_bind] at h
      rcases hm1 : mutate ga (o.mutTrig g (2 * j)) (o.mutClass g (2 * j))
          (o.mutField g (2 * j)) (o.mutRoll g (2 * j))
          (crossover p1 p2 (o.cutR g j)).1 with _ | c1 <;> rw [hm1] at h
      · simp at h
      simp only [Option.bind_eq_bind, Option.some_bind] at h
      rcases hm2 : mutate ga (o.mutTrig g (2 * j + 1)) (o.mutClass g (2 * j + 1))
          (o.mutField g (2 * j + 1)) (o.mutRoll g (2 * j + 1))
          (crossover p1 p2 (o.cutR g j)).2 with _ | c2 <;> rw [hm2] at h
      · simp at h
      simp only [Option.bind_eq_bind, Option.some_bind] at h
      have hc1 : c1.length = R := by
        rw [mutate_length hm1, (crossover_lengths p1 p2 (o.cutR g j)).1]
        exact hsel p1 (pyChoice_mem hp1)
      have hc2 : c2.length = R := by
        rw [mutate_length hm2, (crossover_lengths p1 p2 (o.cutR g j)).2]
        exact hsel p2 (pyChoice_mem hp2)
      refine ih (j + 1) (acc ++ [c1, c2]) out ?_ h
      intro ch hch
      rcases List.mem_append.mp hch with h1 | h1
      · exact hacc ch h1
      · rcases List.mem_cons.mp h1 with rfl | h2
        · exact hc1
        · rw [List.mem_singleton.mp h2]
          exact hc2
    · injection h with h2
      rw [← h2]
      exact hacc

lemma newGeneration_inv {ga : GA} {o : Oracle} {g : Nat} {pop out : List Chromosome}
    {scores : List ℚ} {R : Nat}
    (hok : ∀ k, o.sample g k ≠ [] ∧ ∀ i ∈ o.sample g k, i < pop.length)
    (hlen : ∀ ch ∈ pop, ch.length = R)
    (hsl : scores.length = pop.length)
    (h : newGeneration ga o g pop scores = some out) :
    out.length = pop.length ∧ ∀ ch ∈ out, ch.length = R := by
  simp only [newGeneration] at h
  rcases hf : fillPop ga o g (selection pop scores (o.sample g)) pop.length
      (pop.length + 1) 0
      (((sortIdxDesc scores (List.range scores.length)).take
        (((pop.length : ℚ) * ga.elite_rate).floor.toNat)).map
          (fun i => pop.getD i [])) with _ | filled <;> rw [hf] at h
  · simp at h
  simp only [Option.bind_eq_bind, Option.some_bind] at h
  injection h with h2
  have hfl := fillPop_length ga o g _ _ _ _ _ _ hf
  have helite : ∀ ch ∈ ((sortIdxDesc scores (List.range scores.length)).take
      (((pop.length : ℚ) * ga.elite_rate).floor.toNat)).map
        (fun i => pop.getD i []), ch.length = R := by
    intro ch hch
    obtain ⟨i, hi, hieq⟩ := List.mem_map.mp hch
    have hi2 : i ∈ sortIdxDesc scores (List.range scores.length) :=
      List.mem_of_mem_take hi
    have hi3 : i < scores.length := List.mem_range.mp (mem_sortIdxDesc hi2)
    have hi4 : i < pop.length := by omega
    rw [← hieq, List.getD_eq_getElem _ _ hi4]
    exact hlen _ (List.getElem_mem _)
  have hselmem : ∀ ch ∈ selection pop scores (o.sample g), ch.length = R := by
    intro ch hch
    exact hlen ch (selection_mem hok ch hch)
  have hmem := fillPop_mem ga o g _ _ R hselmem _ _ _ _ helite hf
  constructor
  · rw [← h2, List.length_take]
    omega
  · intro ch hch
    rw [← h2] at hch
    exact hmem ch (List.mem_of_mem_take hch)

lemma evolveLoop_succ_shape (ga : GA) (o : Oracle) (fuel g : Nat)
    (pop : List Chromosome) (bf : ℚ) (bi : Option Chromosome) (stall : Nat)
    (tr : List (List Chromosome × ℚ)) (res : RunResult)
    (h : evolveLoop ga o (fuel + 1) g pop bf bi stall tr = some res) :
    ∃ cur, pyMax (pop.map calculate_fitness) = some cur ∧
      (res = ⟨(if bf < cur then
            some (pop.getD (firstIdxOf (pop.map calculate_fitness) cur) []) else bi),
          (if bf < cur then cur else bf), ((pop, cur) :: tr).reverse⟩ ∨
        ∃ next, newGeneration ga o g pop (pop.map calculate_fitness) = some next ∧
          evolveLoop ga o fuel (g + 1) next (if bf < cur then cur else bf)
            (if bf < cur then
              some (pop.getD (firstIdxOf (pop.map calculate_fitness) cur) []) else bi)
            (if bf < cur then 0 else stall + 1) ((pop, cur) :: tr) = some res) := by
  rw [evolveLoop] at h
  rcases hm : pyMax (pop.map calculate_fitness) with _ | cur <;>
    simp only [hm, Option.bind_eq_bind, Option.some_bind, Option.none_bind] at h
  · exact absurd h (by simp)
  refine ⟨cur, rfl, ?_⟩
  by_cases hbc : bf < cur <;> simp only [hbc, if_true, if_false] at h ⊢
  · split at h
    · exact Or.inl (by injection h with h2; exact h2.symm)
    · split at h
      · exact Or.inl (by injection h with h2; exact h2.symm)
      · rcases hn : newGeneration ga o g pop (pop.map calculate_fitness) with _ | next <;>
          simp only [hn, Option.bind_eq_bind, Option.some_bind, Option.none_bind] at h
        · exact absurd h (by simp)
        · exact Or.inr ⟨next, rfl, h⟩
  · split at h
    · exact Or.inl (by injection h with h2; exact h2.symm)
    · split at h
      · exact Or.inl (by injection h with h2; exact h2.symm)
      · rcases hn : newGeneration ga o g pop (pop.map calculate_fitness) with _ | next <;>
          simp only [hn, Option.bind_eq_bind, Option.some_bind, Option.none_bind] at h
        · exact absurd h (by simp)
        · exact Or.inr ⟨next, rfl, h⟩

lemma evolveLoop_trace_inv (ga : GA) (o : Oracle) (N R : Nat) (hok : SampleOk o N) :
    ∀ (fuel g : Nat) (pop : List Chromosome) (bf : ℚ) (bi : Option Chromosome)
      (stall : Nat) (tr : List (List Chromosome × ℚ)) (res : RunResult),
    pop.length = N → (∀ ch ∈ pop, ch.length = R) →
    (∀ e ∈ tr, e.1.length = N ∧ ∀ ch ∈ e.1, ch.length = R) →
    evolveLoop ga o fuel g pop bf bi stall tr = some res →
    ∀ e ∈ res.trace, e.1.length = N ∧ ∀ ch ∈ e.1, ch.length = R := by
  intro fuel
  induction fuel with
  | zero =>
    intro g pop bf bi stall tr res hN hR htr h
    rw [evolveLoop] at h
    injection h with h2
    subst h2
    intro e he
    exact htr e (List.mem_reverse.mp he)
  | succ fuel ih =>
    intro g pop bf bi stall tr res hN hR htr h
    obtain ⟨cur, hm, hshape⟩ := evolveLoop_succ_shape ga o fuel g pop bf bi stall tr res h
    have htr2 : ∀ e ∈ (pop, cur) :: tr, e.1.length = N ∧ ∀ ch ∈ e.1, ch.length = R := by
      intro e he
      rcases List.mem_cons.mp he with rfl | h2
      · exact ⟨hN, hR⟩
      · exact htr e h2
    rcases hshape with rfl | ⟨next, hn, hrec⟩
    · intro e he
      exact htr2 e (List.mem_reverse.mp he)
    · have hok2 : ∀ k, o.sample g k ≠ [] ∧ ∀ i ∈ o.sample g k, i < pop.length := by
        intro k
        rw [hN]
        exact hok g k
      have hinv := newGeneration_inv hok2 hR (by simp) hn
      exact ih (g + 1) next _ _ _ _ res (hinv.1.trans hN) hinv.2 htr2 hrec

lemma evolveLoop_trace_mono (ga : GA) (o : Oracle) :
    ∀ (fuel g : Nat) (pop : List Chromosome) (bf : ℚ) (bi : Option Chromosome)
      (stall : Nat) (tr : List (List Chromosome × ℚ)) (res : RunResult),
    evolveLoop ga o fuel g pop bf bi stall tr = some res →
    ∀ e ∈ tr, e ∈ res.trace := by
  intro fuel
  induction fuel with
  | zero =>
    intro g pop bf bi stall tr res h
    rw [evolveLoop] at h
    injection h with h2
    subst h2
    intro e he
    exact List.mem_reverse.mpr he
  | succ fuel ih =>
    intro g pop bf bi stall tr res h
    obtain ⟨cur, hm, hshape⟩ := evolveLoop_succ_shape ga o fuel g pop bf bi stall tr res h
    rcases hshape with rfl | ⟨next, hn, hrec⟩
    · intro e he
      exact List.mem_reverse.mpr (List.mem_cons_of_mem _ he)
    · intro e he
      exact ih (g + 1) next _ _ _ _ res hrec e (List.mem_cons_of_mem _ he)

lemma evolveLoop_zero_best (ga : GA) (o : Oracle) :
    ∀ (fuel g : Nat) (pop : List Chromosome) (bf : ℚ) (bi : Option Chromosome)
      (stall : Nat) (tr : List (List Chromosome × ℚ)) (res : RunResult),
    evolveLoop ga o fuel g pop bf bi stall tr = some res →
    (∀ e ∈ res.trace, e.2 = 0) → bf = 0 → bi = none →
    res.best = none ∧ res.bestFitness = 0 := by
  intro fuel
  induction fuel with
  | zero =>
    intro g pop bf bi stall tr res h hz hbf hbi
    rw [evolveLoop] at h
    injection h with h2
    subst h2
    exact ⟨hbi, hbf⟩
  | succ fuel ih =>
    intro g pop bf bi stall tr res h hz hbf hbi
    subst hbf
    subst hbi
    obtain ⟨cur, hm, hshape⟩ := evolveLoop_succ_shape ga o fuel g pop 0 none stall tr res h
    have hmem : (pop, cur) ∈ res.trace := by
      rcases hshape with rfl | ⟨next, hn, hrec⟩
      · exact List.mem_reverse.mpr (List.mem_cons_self _ _)
      · exact evolveLoop_trace_mono ga o fuel (g + 1) next _ _ _ _ res hrec _
          (List.mem_cons_self _ _)
    have hcur : cur = 0 := hz _ hmem
    subst hcur
    rcases hshape with rfl | ⟨next, hn, hrec⟩
    · constructor <;> simp
    · exact ih (g + 1) next _ _ _ _ res hrec hz (by simp) (by simp)

lemma generate_initial_population_inv (ga : GA) (o : Oracle) :
    (generate_initial_population ga o).length = ga.population_size ∧
    ∀ ch ∈ generate_initial_population ga o, ch.length = ga.all_classes.length := by
  constructor
  · simp [generate_initial_population]
  · intro ch hch
    rw [generate_initial_population] at hch
    obtain ⟨p, -, hp⟩ := List.mem_map.mp hch
    rw [← hp]
    simp

/-- C9: in every `evolve` run (with the in-range sampling that
`random.sample` guarantees), every generation's evaluated population
contains exactly `population_size` chromosomes, and every chromosome in
every generation has length equal to the run's requirement count. -/
theorem C9_population_invariants (ga : GA) (o : Oracle) (res : RunResult)
    (hok : SampleOk o ga.population_size) (h : evolve ga o = some res) :
    ∀ e ∈ res.trace, e.1.length = ga.population_size ∧
      ∀ ch ∈ e.1, ch.length = ga.all_classes.length := by
  have hinit := generate_initial_population_inv ga o
  exact evolveLoop_trace_inv ga o ga.population_size ga.all_classes.length hok
    ga.generations 0 _ 0 none 0 [] res hinit.1 hinit.2 (by simp) h

/-- C10: if every generation's best fitness is 0, `evolve` returns
`(None, 0)` — the retained best is replaced only on a strict improvement
over the initial best fitness of 0. -/
theorem C10_all_zero_best_none (ga : GA) (o : Oracle) (res : RunResult)
    (h : evolve ga o = some res) (hz : ∀ e ∈ res.trace, e.2 = 0) :
    res.best = none ∧ res.bestFitness = 0 :=
  evolveLoop_zero_best ga o ga.generations 0 _ 0 none 0 [] res h hz rfl rfl

lemma ratFloor_zero_toNat : (Rat.floor 0).toNat = 0 := rfl

/-- The degenerate zero-requirement run evaluates to a one-generation trace
with best fitness 0 and no retained best. -/
lemma evolve_gaTriv_eval : evolve gaTriv oTriv = some rTriv := by
  norm_num [evolve, evolveLoop, ratFloor_zero_toNat, generate_initial_population, gaTriv, oTriv, rTriv,
    calculate_fitness, pyMax, listMaxQ, firstIdxOf, bestIsFullyAssigned,
    newGeneration, selection, tournamentWinnerIdx, scoreAt, sortIdxDesc,
    insertIdxDesc, fillPop, pyChoice, crossover, mutate, choiceD]

lemma range_one_eq : List.range 1 = [0] := by decide

lemma gaNC_elite : gaNoCatalog.elite_rate = 0 := rfl

lemma initpop_gaNoCatalog :
    generate_initial_population gaNoCatalog oBad = [[reqDur1]] := by
  norm_num [generate_initial_population, gaNoCatalog, oBad, initAssign, reqDur1,
    courseNone, getSuitableRooms, range_one_eq]

lemma fitness_reqDur1 : calculate_fitness [reqDur1] = 0 := by
  norm_num [calculate_fitness, unassignedCount, countConflictPairs, fullyAssignedB,
    reqDur1, max_def]

lemma mutate_gaNoCatalog :
    mutate gaNoCatalog 0 0 2 0 [reqDur1] = none := by
  norm_num [mutate, gaNoCatalog, reqDur1, courseNone, pyChoice]

lemma newGen_gaNoCatalog :
    newGeneration gaNoCatalog oBad 0 [[reqDur1]] [0] = none := by
  norm_num [newGeneration, oBad, selection, tournamentWinnerIdx,
    scoreAt, listMaxQ, firstIdxOf, sortIdxDesc, insertIdxDesc, fillPop, pyChoice,
    crossover, mutate_gaNoCatalog, ratFloor_zero_toNat, range_one_eq, gaNC_elite]

/-- C5: on the all-unassignable catalog (nonempty requirements, empty
instructor/room/time pools, positive population size), `evolve` does not
return a (best, fitness) pair: the first triggered time-field mutation
reaches `random.choice` on the empty meeting-time list and the run raises
(embedded: `none`) instead of completing its bounded generation loop. -/
theorem C5_evolve_all_unassignable_raises : evolve gaNoCatalog oBad = none := by
  rw [evolve, initpop_gaNoCatalog]
  show evolveLoop gaNoCatalog oBad (0 + 1) 0 [[reqDur1]] 0 none 0 [] = none
  rw [evolveLoop]
  norm_num [fitness_reqDur1, pyMax, listMaxQ, firstIdxOf, bestIsFullyAssigned,
    newGen_gaNoCatalog]

/-- C9 witness: the degenerate run's single recorded generation has exactly
`population_size` chromosomes. -/
theorem C9_witness : [([] : Chromosome)].length = gaTriv.population_size :=
  ((C9_population_invariants gaTriv oTriv rTriv
      (fun g k => ⟨by simp [oTriv], by simp [oTriv, gaTriv]⟩) evolve_gaTriv_eval)
    ([([] : Chromosome)], 0) (by simp [rTriv])).1

/-- C10 witness: the degenerate run keeps best fitness 0 in its only
generation and returns no best chromosome. -/
theorem C10_witness : rTriv.best = none ∧ rTriv.bestFitness = 0 :=
  C10_all_zero_best_none gaTriv oTriv rTriv evolve_gaTriv_eval (by simp [rTriv])
